import Mathlib

set_option maxRecDepth 20000

/-!
Verification development for imageme.py, a single-file image gallery server.

The program crawls a directory tree, writes one HTML index file (named
imageme.html) into every visited directory, serves the tree over HTTP until
the server stops, and finally deletes every file it created.

Shallow embedding conventions:
* Filenames and paths are Lean String values; Python 2 byte strings compare
  bytewise, which for UTF-8 encoded names coincides with the codepoint
  ordering used here.
* The on-disk state is a function from paths to optional file contents, and
  the console is a list of printed lines; both are threaded explicitly.
* Python exceptions are modelled by the PyExc type and fallible code returns
  the state together with an optional raised exception.
* The directory tree that os.walk traverses is the FsTree type; os.walk
  yields subdirectories and files in unspecified OS order, which the model
  keeps as the list order stored in the tree.
* The blocking HTTP server is modelled by its two observable outcomes: how
  the TCPServer constructor ends (normally or raising) and how the
  serve_forever call ends (an interrupt or some other exception).
-/

/-! ## Constants of imageme.py -/

/-- Filename of the generated index files (INDEX_FILE_NAME in imageme.py). -/
def INDEX_FILE_NAME : String := "imageme.html"

/-- Images per row of the gallery tables (IMAGES_PER_ROW in imageme.py). -/
def IMAGES_PER_ROW : Nat := 3

/-- The extension alternatives of IMAGE_FILE_REGEX, which is the pattern
^.+\.(png|jpg|jpeg|tif|tiff|gif|bmp)$ in imageme.py. -/
def IMAGE_EXTS : List String := ["png", "jpg", "jpeg", "tif", "tiff", "gif", "bmp"]

/-! ## Regex matching

re.match(IMAGE_FILE_REGEX, f) tests whether the whole name f matches
^.+\.(png|jpg|jpeg|tif|tiff|gif|bmp)$ where the dot metacharacter matches any
character except a newline and the dollar anchor matches at the end of the
string or just before one trailing newline.  Hence f matches exactly when,
after discarding one trailing newline if present, f decomposes as a nonempty
newline-free base, a literal dot, and one of the seven extensions. -/

/-- Drop one trailing newline, mirroring how the dollar anchor of the regex
may match just before a single final newline. -/
def stripTrailingNewline (l : List Char) : List Char :=
  if l.getLast? = some '\n' then l.dropLast else l

/-- Semantics of re.match(IMAGE_FILE_REGEX, f) as a Boolean: the name ends
with a dot followed by one of IMAGE_EXTS, and the part before that dot is
nonempty and newline-free. -/
def reMatchImage (f : String) : Bool :=
  let g := stripTrailingNewline f.data
  IMAGE_EXTS.any (fun ext =>
    let suff := '.' :: ext.data
    suff.isSuffixOf g && decide (suff.length < g.length) &&
      !((g.take (g.length - suff.length)).contains '\n'))

/-! ## Python string ordering and sorted -/

/-- Lexicographic comparison of character lists, the order Python 2 uses to
compare byte strings. -/
def charListLe : List Char → List Char → Bool
  | [], _ => true
  | _ :: _, [] => false
  | a :: as, b :: bs => if a = b then charListLe as bs else decide (a < b)

/-- Python string comparison a <= b. -/
def pyStrLe (a b : String) : Bool := charListLe a.data b.data

/-- Python sorted() on a list of strings: the stable ascending sort by
pyStrLe.  Since pyStrLe is antisymmetric, every stable or unstable sorting
algorithm returns the same list, so insertion sort is used. -/
def pySorted (l : List String) : List String :=
  l.insertionSort (fun a b => pyStrLe a b = true)

/-! ## Paths -/

/-- Semantics of os.path.join(a, b) on POSIX: b wins when absolute, and
otherwise a separator is inserted unless a is empty or already ends in one. -/
def os_path_join (a b : String) : String :=
  if b.data.head? = some '/' then b
  else if a = "" || a.data.getLast? = some '/' then a ++ b
  else a ++ "/" ++ b

/-- Translation of _get_index_file_path: location joined with
INDEX_FILE_NAME. -/
def _get_index_file_path (location : String) : String :=
  os_path_join location INDEX_FILE_NAME

/-! ## Exceptions, disk and console state -/

/-- Python exceptions relevant to imageme.py.  keyboardInterrupt and
systemExit derive from BaseException only; the remaining constructors derive
from Exception and are therefore caught by an except Exception clause. -/
inductive PyExc where
  | keyboardInterrupt
  | systemExit
  | valueError (msg : String)
  | oserror (msg : String)
  | exception (msg : String)
deriving DecidableEq, Repr

/-- Whether an exception value is caught by an except Exception clause. -/
def isExceptionSubclass : PyExc → Bool
  | PyExc.keyboardInterrupt => false
  | PyExc.systemExit => false
  | _ => true

/-- Message printed by print(exptn). -/
def excStr : PyExc → String
  | PyExc.keyboardInterrupt => "KeyboardInterrupt"
  | PyExc.systemExit => "SystemExit"
  | PyExc.valueError m => m
  | PyExc.oserror m => m
  | PyExc.exception m => m

/-- The disk: a map from file paths to the contents of the file there, none
meaning no file exists at that path. -/
def Fs : Type := String → Option String

/-- Disk and console state threaded through the program. -/
structure World where
  fs : Fs
  out : List String

/-- Effect of print(s): one more line on the console. -/
def pyPrint (s : String) (w : World) : World :=
  { w with out := w.out ++ [s] }

/-- Effect of open(path, w) followed by write and close: the file at the
path is created or truncated and holds exactly the written content. -/
def fsWrite (path content : String) (fs : Fs) : Fs :=
  fun q => if q = path then some content else fs q

/-- Semantics of os.unlink(path): removes the file, raising OSError when no
file exists at the path. -/
def os_unlink (path : String) (fs : Fs) : Except PyExc Fs :=
  match fs path with
  | some _ => Except.ok (fun q => if q = path then none else fs q)
  | none => Except.error (PyExc.oserror ("[Errno 2] No such file or directory: " ++ path))

/-! ## Command line and int() -/

/-- Whitespace stripped by int() before parsing. -/
def isPySpace (c : Char) : Bool :=
  c = ' ' || c = '\t' || c = '\n' || c = '\r' || c = '\x0b' || c = '\x0c'

/-- Value of a digit string. -/
def digitsVal (cs : List Char) : Nat :=
  cs.foldl (fun n c => n * 10 + (c.toNat - 48)) 0

/-- Semantics of Python int(s) on a string: strip whitespace, allow one
optional sign, then require one or more decimal digits; anything else raises
ValueError (modelled as none). -/
def pyIntParse (s : String) : Option Int :=
  let t := ((s.data.dropWhile isPySpace).reverse.dropWhile isPySpace).reverse
  match t with
  | '+' :: ds =>
    if !ds.isEmpty && ds.all Char.isDigit then some (digitsVal ds) else none
  | '-' :: ds =>
    if !ds.isEmpty && ds.all Char.isDigit then some (-(digitsVal ds : Int)) else none
  | ds =>
    if !ds.isEmpty && ds.all Char.isDigit then some (digitsVal ds) else none

/-- Translation of _get_server_port: int(sys.argv[1]) when at least two
argv entries exist (argv[0] is the script name), else the default 8000.  A
failing conversion raises ValueError. -/
def _get_server_port (argv : List String) : Except PyExc Int :=
  match argv with
  | _ :: arg1 :: _ =>
    match pyIntParse arg1 with
    | some n => Except.ok n
    | none =>
      Except.error (PyExc.valueError ("invalid literal for int() with base 10: " ++ arg1))
  | _ => Except.ok 8000

/-! ## The index renderer (_create_index_file) -/

/-- Python 2 renders str(100.0 / IMAGES_PER_ROW) with IMAGES_PER_ROW = 3 as
this twelve-significant-digit literal; the float formatting itself is outside
the embedding and no claim depends on these digits. -/
def TD_WIDTH_STR : String := "33.3333333333"

/-- Lines appended for one navigation entry: a link to
directory/INDEX_FILE_NAME labelled with the directory name. -/
def navEntryLines (directory : String) : List String :=
  ["    <h3 class=\"header\">",
   "    <a href=\"" ++ (directory ++ "/" ++ INDEX_FILE_NAME) ++ "\">" ++ directory ++ "</a>",
   "    </h3>"]

/-- The navigation list: a parent entry .. when the location is not the
crawl root, followed by the given subdirectories. -/
def navDirectories (root_dir location : String) (dirs : List String) : List String :=
  (if root_dir ≠ location then [".."] else []) ++ dirs

/-- Lines appended for one image cell of the gallery table. -/
def cellLines (image_file : String) : List String :=
  ["    <td>",
   "    <a href=\"" ++ image_file ++ "\">",
   "        <img class=\"image\" src=\"" ++ image_file ++ "\">",
   "    </a>",
   "    </td>"]

/-- One iteration of the gallery loop.  The accumulator carries the html
lines so far and table_row_count: a new tr opens when the counter is 1; after
the cell, reaching IMAGES_PER_ROW closes the tr and resets the counter to 0;
the counter is then incremented in both branches. -/
def galleryStep (acc : List String × Nat) (image_file : String) : List String × Nat :=
  let html := if acc.2 = 1 then acc.1 ++ ["<tr>"] else acc.1
  let html := html ++ cellLines image_file
  if acc.2 = IMAGES_PER_ROW then (html ++ ["</tr>"], 0 + 1) else (html, acc.2 + 1)

/-- The html lines assembled by _create_index_file before writing.  The
fourth line reproduces a quirk of the source: the title line of the Python
list has no trailing comma, so the adjacent style line is concatenated onto
it.  After the gallery loop the source always appends one more closing tr
line and the closing table line. -/
def _create_index_file_lines (root_dir location : String)
    (image_files dirs : List String) : List String :=
  let header_text :=
    "imageMe: " ++ location ++ " [" ++ toString image_files.length ++ " image(s)]"
  let html : List String := [
    "<!DOCTYPE html>",
    "<html>",
    "    <head>",
    "        <title>imageMe</title>        <style>",
    "            html, body \x7bmargin: 0;padding: 0;\x7d",
    "            .header \x7btext-align: right;\x7d",
    "            .content \x7b",
    "                padding: 3em;",
    "                padding-left: 4em;",
    "                padding-right: 4em;",
    "            \x7d",
    "            .image \x7bmax-width: 100%; border-radius: 0.3em;\x7d",
    "            td \x7bwidth: " ++ TD_WIDTH_STR ++ "%;\x7d",
    "        </style>",
    "    </head>",
    "    <body>",
    "    <div class=\"content\">",
    "        <h2 class=\"header\">" ++ header_text ++ "</h2>",
    "        <hr>"]
  let html := html ++ ((navDirectories root_dir location dirs).map navEntryLines).flatten
  let html := (image_files.foldl galleryStep (html ++ ["<hr>", "<table>"], 1)).1
  let html := html ++ ["</tr>", "</table>"]
  html ++ ["    </div>", "    </body>", "</html>"]

/-- Translation of _create_index_file: assemble the html, print the creation
message, write the joined document to location/INDEX_FILE_NAME and return
that path. -/
def _create_index_file (root_dir location : String)
    (image_files dirs : List String) (w : World) : String × World :=
  let html := _create_index_file_lines root_dir location image_files dirs
  let index_file_path := _get_index_file_path location
  let w := pyPrint ("Creating index file " ++ index_file_path) w
  let w := { w with fs := fsWrite index_file_path (String.intercalate "\n" html) w.fs }
  (index_file_path, w)

/-! ## The crawl (os.walk and create_index_files) -/

/-- Directory tree as seen by os.walk: each node lists its immediate
subdirectories (name and subtree, in OS order) and its non-directory entries
(names, in OS order). -/
inductive FsTree where
  | mk (subdirs : List (String × FsTree)) (files : List String)

/-- Immediate subdirectories of a tree node. -/
def FsTree.subdirs : FsTree → List (String × FsTree)
  | FsTree.mk s _ => s

/-- Non-directory entries of a tree node. -/
def FsTree.files : FsTree → List String
  | FsTree.mk _ f => f

mutual

/-- Semantics of os.walk(path) top-down: yield the triple for the current
directory, then recurse into each subdirectory in OS order.  The loop body of
create_index_files rebinds its dirs variable instead of mutating the yielded
list, so the traversal order is never affected by the sorting there. -/
def os_walk (path : String) (t : FsTree) : List (String × List String × List String) :=
  match t with
  | FsTree.mk subdirs files =>
    (path, subdirs.map Prod.fst, files) :: os_walkList path subdirs

/-- Walks of the subdirectories of a directory at the given path, in order,
concatenated. -/
def os_walkList (path : String) (l : List (String × FsTree)) :
    List (String × List String × List String) :=
  match l with
  | [] => []
  | (n, c) :: rest => os_walk (os_path_join path n) c ++ os_walkList path rest

end

/-- Body of the loop of create_index_files for one os.walk triple: print the
progress line, sort the subdirectory names, filter the files through
IMAGE_FILE_REGEX and sort the matches, create the index file there and append
the returned path to the accumulated list. -/
def processWalkEntry (root_dir : String) (acc : List String × World)
    (v : String × List String × List String) : List String × World :=
  let w := pyPrint ("Processing " ++ v.1) acc.2
  let dirs := pySorted v.2.1
  let image_files := pySorted (v.2.2.filter (fun f => reMatchImage f))
  let pw := _create_index_file root_dir v.1 image_files dirs w
  (acc.1 ++ [pw.1], pw.2)

/-- Translation of create_index_files: fold the loop body over the os.walk
traversal, returning the accumulated created-file paths and the final
state. -/
def create_index_files (root_dir : String) (t : FsTree) (w : World) :
    List String × World :=
  (os_walk root_dir t).foldl (processWalkEntry root_dir) ([], w)

/-! ## The server (run_server) -/

/-- Translation of run_server.  The port is read first (int conversion of
argv[1], so a ValueError raised there propagates).  The TCPServer constructor
runs before the try block, so an exception raised while creating or binding
the server, modelled by bindOutcome = some e, propagates uncaught.
serve_forever blocks until it raises; serveOutcome is how it ends: none for a
normal return (only possible via an external shutdown call, never in this
program), or the raised exception.  KeyboardInterrupt and any Exception
subclass are caught and reported; other BaseException values propagate. -/
def run_server (argv : List String) (bindOutcome : Option PyExc)
    (serveOutcome : Option PyExc) (w : World) : World × Option PyExc :=
  match _get_server_port argv with
  | Except.error e => (w, some e)
  | Except.ok port =>
    match bindOutcome with
    | some e => (w, some e)
    | none =>
      let w := pyPrint
        ("Your images are at http://127.0.0.1:" ++ toString port ++ "/" ++ INDEX_FILE_NAME) w
      match serveOutcome with
      | none => (w, none)
      | some PyExc.keyboardInterrupt => (pyPrint "User interrupted, stopping" w, none)
      | some e =>
        if isExceptionSubclass e then
          (pyPrint "Unhandled exception in server, stopping" (pyPrint (excStr e) w), none)
        else (w, some e)

/-! ## Cleanup (clean_up) and the whole run (serve_dir) -/

/-- The loop of clean_up: print the removal line, then os.unlink the path; a
raised exception stops the loop and propagates with the state reached so
far. -/
def cleanUpGo : List String → World → World × Option PyExc
  | [], w => (w, none)
  | p :: rest, w =>
    let w := pyPrint ("Removing " ++ p) w
    match os_unlink p w.fs with
    | Except.ok fs => cleanUpGo rest { w with fs := fs }
    | Except.error e => (w, some e)

/-- Translation of clean_up: print the banner then unlink every given path
in order. -/
def clean_up (paths : List String) (w : World) : World × Option PyExc :=
  cleanUpGo paths (pyPrint "Cleaning up" w)

/-- Translation of serve_dir: create the index files, run the server, and
clean up afterwards.  An exception propagating out of run_server skips
clean_up. -/
def serve_dir (dir_path : String) (t : FsTree) (argv : List String)
    (bindOutcome serveOutcome : Option PyExc) (w : World) : World × Option PyExc :=
  let cw := create_index_files dir_path t w
  match run_server argv bindOutcome serveOutcome cw.2 with
  | (w2, some e) => (w2, some e)
  | (w2, none) => clean_up cw.1 w2

mutual

/-- Tree transformation describing the on-disk effect of one full crawl on
the directory listings that a later os.walk sees: every visited directory
afterwards contains a file named INDEX_FILE_NAME, newly listed when absent
and unchanged in the listing when already present. -/
def addIndexFile : FsTree → FsTree
  | FsTree.mk subdirs files =>
    FsTree.mk (addIndexFileList subdirs)
      (if INDEX_FILE_NAME ∈ files then files else files ++ [INDEX_FILE_NAME])

/-- addIndexFile mapped over the subdirectory list. -/
def addIndexFileList : List (String × FsTree) → List (String × FsTree)
  | [] => []
  | (n, c) :: rest => (n, addIndexFile c) :: addIndexFileList rest

end

/-- Occurs root t p s states that the directory at path p with subtree s is
one of the directories visited when walking t from root: either the root
itself or, recursively, a directory inside one of the subdirectories. -/
inductive Occurs : String → FsTree → String → FsTree → Prop where
  | refl (p : String) (t : FsTree) : Occurs p t p t
  | child {p : String} {t : FsTree} {q : String} {s : FsTree} (n : String) (c : FsTree)
      (hmem : (n, c) ∈ t.subdirs) (h : Occurs (os_path_join p n) c q s) : Occurs p t q s

/-! ## Proof-layer definitions -/

/-- Boolean prefix test on character lists, used to separate fixed html line
templates from each other. -/
def listIsPre : List Char → List Char → Bool
  | [], _ => true
  | _ :: _, [] => false
  | a :: as, b :: bs => decide (a = b) && listIsPre as bs

/-- Content that processWalkEntry writes for one visit. -/
def visitIndexContent (root : String) (v : String × List String × List String) : String :=
  String.intercalate "\n" (_create_index_file_lines root v.1
    (pySorted (v.2.2.filter (fun f => reMatchImage f))) (pySorted v.2.1))

/-- Names yielded anywhere by a walk: the well-formedness the filesystem
guarantees, namely that directory names are nonempty and contain no leading
slash (os.walk yields bare entry names). -/
def WalkNamesWf (p : String) (t : FsTree) : Prop :=
  ∀ v ∈ os_walk p t, ∀ nm ∈ v.2.1, nm ≠ "" ∧ ¬nm.data.head? = some '/'

/-- Hypothesis for the walk-list part of the path-length induction: the names
at this level are well formed and so are all names yielded deeper down. -/
def WalkListNamesWf (p : String) (l : List (String × FsTree)) : Prop :=
  (∀ nc ∈ l, nc.1 ≠ "" ∧ ¬nc.1.data.head? = some '/') ∧
    (∀ v ∈ os_walkList p l, ∀ nm ∈ v.2.1, nm ≠ "" ∧ ¬nm.data.head? = some '/')

/-! ## Sample data used by the witnesses -/

/-- Small directory tree used to instantiate theorems: a root with two images,
a non-image file and one subdirectory holding one image. -/
def sampleTree : FsTree :=
  FsTree.mk [("sub", FsTree.mk [] ["c.jpg", "notes.txt"])] ["b.png", "a.jpg", "readme.md"]

/-- Empty disk and console. -/
def emptyWorld : World := ⟨fun _ => none, []⟩

/-- Disk used by the C8 witness: files exist at a and c but not at b. -/
def claim8World : World :=
  ⟨fun q => if q = "a" then some "xa" else if q = "c" then some "xc" else none, []⟩

/-! ## Helper lemmas: strings -/

theorem listIsPre_append (p x : List Char) : listIsPre p (p ++ x) = true := by
  induction p with
  | nil => rfl
  | cons a as ih => simp [listIsPre, ih]

theorem listIsPre_total_of_append {p q x y : List Char} (h : p ++ x = q ++ y) :
    listIsPre p q = true ∨ listIsPre q p = true := by
  induction p generalizing q with
  | nil => left; rfl
  | cons a as ih =>
    cases q with
    | nil => right; rfl
    | cons b bs =>
      have hab : a = b := by
        have := congrArg (fun l => List.head? l) h
        simpa using this
      have htail : as ++ x = bs ++ y := by
        have := congrArg (fun l => List.tail l) h
        simpa using this
      rcases ih htail with h1 | h1
      · left; simp [listIsPre, hab, h1]
      · right; simp [listIsPre, hab, h1]

theorem strEq_data {a b : String} (h : a = b) : a.data = b.data := by rw [h]

/-- Two appended strings with incomparable fixed heads are different. -/
theorem strAppend_ne {p q : String} (x y : String)
    (h1 : listIsPre p.data q.data = false) (h2 : listIsPre q.data p.data = false) :
    p ++ x ≠ q ++ y := by
  intro he
  have hd : p.data ++ x.data = q.data ++ y.data := by
    have := strEq_data he
    simpa [String.data_append] using this
  rcases listIsPre_total_of_append hd with h | h
  · rw [h1] at h; exact Bool.false_ne_true h
  · rw [h2] at h; exact Bool.false_ne_true h

/-- A string starting with a fixed head is different from a fixed string the
head is no prefix of. -/
theorem strAppend_ne_lit {p : String} (x : String) {t : String}
    (h : listIsPre p.data t.data = false) : p ++ x ≠ t := by
  intro he
  have hd : p.data ++ x.data = t.data := by
    have := strEq_data he
    simpa [String.data_append] using this
  have h2 : listIsPre p.data t.data = true := by
    rw [← hd]; exact listIsPre_append _ _
  rw [h] at h2; exact Bool.false_ne_true h2

/-- Cancellation for strings of the shape head ++ middle ++ tail. -/
theorem strAppend_inj {p s : String} {f g : String}
    (h : p ++ f ++ s = p ++ g ++ s) : f = g := by
  have hd := strEq_data h
  simp only [String.data_append, List.append_assoc] at hd
  have h2 := List.append_cancel_left hd
  have h3 := List.append_cancel_right h2
  exact String.ext h3

/-! ## Helper lemmas: the Python string order and sorted -/

theorem charListLe_total (a b : List Char) :
    charListLe a b = true ∨ charListLe b a = true := by
  induction a generalizing b with
  | nil => left; rfl
  | cons x xs ih =>
    cases b with
    | nil => right; rfl
    | cons y ys =>
      by_cases hxy : x = y
      · rcases ih ys with h | h
        · left; simp [charListLe, hxy, h]
        · right; simp [charListLe, hxy, h]
      · rcases lt_or_gt_of_ne hxy with h | h
        · left; simp [charListLe, hxy, h]
        · right; simp [charListLe, Ne.symm hxy, h, not_lt_of_gt h]

theorem charListLe_trans {a b c : List Char}
    (h1 : charListLe a b = true) (h2 : charListLe b c = true) :
    charListLe a c = true := by
  induction a generalizing b c with
  | nil => rfl
  | cons x xs ih =>
    cases b with
    | nil => simp [charListLe] at h1
    | cons y ys =>
      cases c with
      | nil => simp [charListLe] at h2
      | cons z zs =>
        by_cases hxy : x = y <;> by_cases hyz : y = z
        · subst hxy; subst hyz
          simp only [charListLe, if_pos rfl] at h1 h2 ⊢
          exact ih h1 h2
        · subst hxy
          simp only [charListLe, if_pos rfl, if_neg hyz] at h2 ⊢
          exact h2
        · subst hyz
          simp only [charListLe, if_pos rfl, if_neg hxy] at h1 ⊢
          exact h1
        · simp only [charListLe, if_neg hxy, if_neg hyz] at h1 h2
          have hxz : x < z := lt_trans (of_decide_eq_true h1) (of_decide_eq_true h2)
          simp [charListLe, ne_of_lt hxz, hxz]

theorem pySorted_perm (l : List String) : (pySorted l).Perm l :=
  List.perm_insertionSort _ l

theorem pySorted_sorted (l : List String) :
    List.Sorted (fun a b => pyStrLe a b = true) (pySorted l) := by
  haveI : IsTotal String (fun a b => pyStrLe a b = true) :=
    ⟨fun a b => charListLe_total a.data b.data⟩
  haveI : IsTrans String (fun a b => pyStrLe a b = true) :=
    ⟨fun _ _ _ h1 h2 => charListLe_trans h1 h2⟩
  exact List.sorted_insertionSort _ l

/-- The Boolean comparison agrees with lexicographic-or-equal on the
character lists, so pySorted orders names lexicographically ascending. -/
theorem charListLe_iff_lex (a b : List Char) :
    charListLe a b = true ↔ (List.Lex (· < ·) a b ∨ a = b) := by
  induction a generalizing b with
  | nil =>
    cases b with
    | nil => simp [charListLe]
    | cons y ys => simp [charListLe]; exact List.Lex.nil
  | cons x xs ih =>
    cases b with
    | nil =>
      constructor
      · intro h; simp [charListLe] at h
      · rintro (h | h)
        · cases h
        · cases h
    | cons y ys =>
      by_cases hxy : x = y
      · subst hxy
        rw [show charListLe (x :: xs) (x :: ys) = charListLe xs ys from by
          simp [charListLe]]
        rw [ih ys]
        constructor
        · rintro (h | h)
          · exact Or.inl (List.Lex.cons h)
          · subst h; exact Or.inr rfl
        · rintro (h | h)
          · cases h with
            | cons h => exact Or.inl h
            | rel h => exact absurd h (lt_irrefl x)
          · injection h with h1 h2; subst h2; exact Or.inr rfl
      · rw [show charListLe (x :: xs) (y :: ys) = decide (x < y) from by
          simp [charListLe, hxy]]
        constructor
        · intro h
          exact Or.inl (List.Lex.rel (of_decide_eq_true h))
        · rintro (h | h)
          · cases h with
            | cons h2 => exact absurd rfl hxy
            | rel h2 => exact decide_eq_true h2
          · injection h with h1 h2; exact absurd h1 hxy

theorem pyStrLe_iff_lex (a b : String) :
    pyStrLe a b = true ↔ (List.Lex (· < ·) a.data b.data ∨ a = b) := by
  rw [pyStrLe, charListLe_iff_lex]
  constructor
  · rintro (h | h)
    · exact Or.inl h
    · exact Or.inr (String.ext h)
  · rintro (h | h)
    · exact Or.inl h
    · exact Or.inr (strEq_data h)

/-- pySorted output is sorted in the plain lexicographic-or-equal order. -/
theorem pySorted_sorted_lex (l : List String) :
    List.Sorted (fun a b => List.Lex (· < ·) a.data b.data ∨ a = b) (pySorted l) :=
  List.Pairwise.imp (fun h => (pyStrLe_iff_lex _ _).1 h) (pySorted_sorted l)

theorem pySorted_mem {f : String} {l : List String} :
    f ∈ pySorted l ↔ f ∈ l :=
  (pySorted_perm l).mem_iff


/-! ## Helper lemmas: the gallery loop and line counts -/

theorem galleryStep_append (h : List String) (c : Nat) (f : String) :
    (galleryStep (h, c) f).1 = h ++ (galleryStep ([], c) f).1 ∧
    (galleryStep (h, c) f).2 = (galleryStep ([], c) f).2 := by
  constructor <;>
  · simp only [galleryStep, IMAGES_PER_ROW]
    split <;> split <;> simp [List.append_assoc]

theorem galleryFold_append (fs : List String) (h : List String) (c : Nat) :
    (fs.foldl galleryStep (h, c)).1 = h ++ (fs.foldl galleryStep ([], c)).1 := by
  induction fs generalizing h c with
  | nil => simp
  | cons f rest ih =>
    simp only [List.foldl_cons]
    obtain ⟨e1, e2⟩ := galleryStep_append h c f
    have hstep : galleryStep (h, c) f
        = (h ++ (galleryStep ([], c) f).1, (galleryStep ([], c) f).2) :=
      Prod.ext_iff.mpr ⟨e1, e2⟩
    rw [hstep, ih]
    have h2 : rest.foldl galleryStep (galleryStep ([], c) f)
        = rest.foldl galleryStep ((galleryStep ([], c) f).1, (galleryStep ([], c) f).2) := rfl
    rw [h2, ih ((galleryStep ([], c) f).1) ((galleryStep ([], c) f).2)]
    rw [List.append_assoc]

theorem galleryFold_three (f1 f2 f3 : String) (h : List String) :
    ([f1, f2, f3].foldl galleryStep (h, 1)).1
      = h ++ ["<tr>"] ++ cellLines f1 ++ cellLines f2 ++ cellLines f3 ++ ["</tr>"] := by
  simp [galleryStep, IMAGES_PER_ROW, List.append_assoc]

theorem strAppend_assoc (a b c : String) : a ++ b ++ c = a ++ (b ++ c) :=
  String.ext (by simp [String.data_append])

theorem count_cellLines (f tok : String)
    (h1 : listIsPre "    <a href=\"".data tok.data = false)
    (h2 : listIsPre "        <img class=\"image\" src=\"".data tok.data = false) :
    (cellLines f).count tok = (["    <td>", "    </a>", "    </td>"].count tok) := by
  have n1 : "    <a href=\"" ++ (f ++ "\">") ≠ tok := strAppend_ne_lit _ h1
  have n2 : "        <img class=\"image\" src=\"" ++ (f ++ "\">") ≠ tok :=
    strAppend_ne_lit _ h2
  simp only [cellLines, List.count_cons, List.count_nil, strAppend_assoc]
  simp [n1, n2]

example : (cellLines "x.png").count "<tr>" = 0 := by
  rw [count_cellLines _ _ (by decide) (by decide)]; decide

theorem count_navEntryLines (d tok : String)
    (h1 : listIsPre "    <a href=\"".data tok.data = false) :
    (navEntryLines d).count tok
      = (["    <h3 class=\"header\">", "    </h3>"].count tok) := by
  have n1 : "    <a href=\"" ++ ((d ++ "/" ++ INDEX_FILE_NAME) ++ ("\">" ++ (d ++ "</a>"))) ≠ tok :=
    strAppend_ne_lit _ h1
  simp only [navEntryLines, List.count_cons, List.count_nil, strAppend_assoc]
  simp only [strAppend_assoc] at n1
  simp [n1]

theorem count_navFlatten (entries : List String) (tok : String)
    (h1 : listIsPre "    <a href=\"".data tok.data = false)
    (h2 : ("    <h3 class=\"header\">" : String) ≠ tok)
    (h3 : ("    </h3>" : String) ≠ tok) :
    ((entries.map navEntryLines).flatten).count tok = 0 := by
  induction entries with
  | nil => rfl
  | cons e rest ih =>
    simp only [List.map_cons, List.flatten_cons, List.count_append, ih]
    rw [count_navEntryLines e tok h1]
    simp [List.count_cons, h2, h3]

/-- Count of any row or cell token among the html lines for exactly three
image files: the fixed skeleton lines, the two variable-content lines and the
navigation lines contribute according to the given prefix separations. -/
theorem count_lines_three (root_dir location : String) (dirs : List String)
    (f1 f2 f3 tok : String)
    (hA : listIsPre "    <a href=\"".data tok.data = false)
    (hImg : listIsPre "        <img class=\"image\" src=\"".data tok.data = false)
    (hTd : listIsPre "            td \x7bwidth: ".data tok.data = false)
    (hH2 : listIsPre "        <h2 class=\"header\">".data tok.data = false)
    (hH3a : ("    <h3 class=\"header\">" : String) ≠ tok)
    (hH3b : ("    </h3>" : String) ≠ tok) :
    (_create_index_file_lines root_dir location [f1, f2, f3] dirs).count tok
      = (["<!DOCTYPE html>", "<html>", "    <head>",
          "        <title>imageMe</title>        <style>",
          "            html, body \x7bmargin: 0;padding: 0;\x7d",
          "            .header \x7btext-align: right;\x7d",
          "            .content \x7b",
          "                padding: 3em;",
          "                padding-left: 4em;",
          "                padding-right: 4em;",
          "            \x7d",
          "            .image \x7bmax-width: 100%; border-radius: 0.3em;\x7d",
          "        </style>", "    </head>", "    <body>",
          "    <div class=\"content\">", "        <hr>",
          "<hr>", "<table>", "<tr>", "</tr>", "</tr>", "</table>",
          "    </div>", "    </body>", "</html>"].count tok)
        + 3 * (["    <td>", "    </a>", "    </td>"].count tok) := by
  have n1 : ∀ x : String, "            td \x7bwidth: " ++ x ≠ tok :=
    fun x => strAppend_ne_lit x hTd
  have n2 : ∀ x : String, "        <h2 class=\"header\">" ++ x ≠ tok :=
    fun x => strAppend_ne_lit x hH2
  simp only [_create_index_file_lines, galleryFold_three, List.count_append]
  rw [count_navFlatten _ _ hA hH3a hH3b,
      count_cellLines f1 _ hA hImg,
      count_cellLines f2 _ hA hImg,
      count_cellLines f3 _ hA hImg]
  simp only [strAppend_assoc]
  simp [List.count_cons, n1, n2]
  omega

/-! ## Helper lemmas: the walk -/

theorem os_walkList_cons (path : String) (n : String) (c : FsTree)
    (rest : List (String × FsTree)) :
    os_walkList path ((n, c) :: rest)
      = os_walk (os_path_join path n) c ++ os_walkList path rest := rfl

theorem mem_os_walkList {v : String × List String × List String} {path : String}
    {l : List (String × FsTree)} :
    v ∈ os_walkList path l ↔ ∃ n c, (n, c) ∈ l ∧ v ∈ os_walk (os_path_join path n) c := by
  induction l with
  | nil => simp [os_walkList]
  | cons nc rest ih =>
    cases nc with
    | mk n c =>
      rw [os_walkList_cons]
      simp only [List.mem_append, ih]
      constructor
      · rintro (h | ⟨m, d, hm, hv⟩)
        · exact ⟨n, c, List.mem_cons_self _ _, h⟩
        · exact ⟨m, d, List.mem_cons_of_mem _ hm, hv⟩
      · rintro ⟨m, d, hm, hv⟩
        rcases List.mem_cons.1 hm with he | hm2
        · cases he; exact Or.inl hv
        · exact Or.inr ⟨m, d, hm2, hv⟩

theorem os_walk_sublist_walkList {n : String} {c : FsTree} {path : String}
    {l : List (String × FsTree)} (h : (n, c) ∈ l) :
    (os_walk (os_path_join path n) c).Sublist (os_walkList path l) := by
  induction l with
  | nil => cases h
  | cons nc rest ih =>
    rcases List.mem_cons.1 h with he | hm
    · cases he
      rw [os_walkList_cons]
      exact List.sublist_append_left _ _
    · cases nc with
      | mk m d =>
        rw [os_walkList_cons]
        exact (ih hm).trans (List.sublist_append_right _ _)

theorem os_walk_mem_of_child {path n : String} {c : FsTree}
    {v : String × List String × List String} {t : FsTree} (hm : (n, c) ∈ t.subdirs)
    (hv : v ∈ os_walk (os_path_join path n) c) : v ∈ os_walk path t := by
  cases t with
  | mk s f =>
    simp only [FsTree.subdirs] at hm
    exact List.mem_cons_of_mem _ (mem_os_walkList.2 ⟨n, c, hm, hv⟩)

theorem strLength_pos {n : String} (h : n ≠ "") : 0 < n.length := by
  cases n with
  | mk l =>
    cases l with
    | nil => exact absurd rfl h
    | cons a as => simp [String.length]

theorem os_path_join_length_lt {p n : String} (hne : n ≠ "")
    (hsl : ¬n.data.head? = some '/') : p.length < (os_path_join p n).length := by
  have hn := strLength_pos hne
  unfold os_path_join
  rw [if_neg hsl]
  by_cases h : p = "" || p.data.getLast? = some '/'
  · rw [if_pos h, String.length_append]
    omega
  · rw [if_neg h, String.length_append, String.length_append]
    have h1 : ("/" : String).length = 1 := rfl
    omega

theorem walkLen_case1 : ∀ (p : String) (s : List (String × FsTree)) (f : List String),
    (WalkListNamesWf p s → ∀ v ∈ os_walkList p s, p.length < v.1.length) →
    (WalkNamesWf p (FsTree.mk s f) →
      ∀ v ∈ os_walk p (FsTree.mk s f), p.length ≤ v.1.length) := by
  intro p s f ih H v hv
  rcases List.mem_cons.1 hv with he | hm
  · rw [he]
  · have hhead : ∀ nm ∈ s.map Prod.fst, nm ≠ "" ∧ ¬nm.data.head? = some '/' :=
      H (p, s.map Prod.fst, f) (List.mem_cons_self _ _)
    have h1 : ∀ nc ∈ s, nc.1 ≠ "" ∧ ¬nc.1.data.head? = some '/' := by
      intro nc hnc
      exact hhead nc.1 (List.mem_map_of_mem Prod.fst hnc)
    have h2 : ∀ v ∈ os_walkList p s, ∀ nm ∈ v.2.1, nm ≠ "" ∧ ¬nm.data.head? = some '/' := by
      intro v2 hv2
      exact H v2 (List.mem_cons_of_mem _ hv2)
    exact le_of_lt (ih ⟨h1, h2⟩ v hm)

theorem walkLen_case2 : ∀ p : String, WalkListNamesWf p [] →
    ∀ v ∈ os_walkList p ([] : List (String × FsTree)), p.length < v.1.length := by
  intro p _ v hv
  simp [os_walkList] at hv

theorem walkLen_case3 : ∀ (p n : String) (c : FsTree) (rest : List (String × FsTree)),
    (WalkNamesWf (os_path_join p n) c →
      ∀ v ∈ os_walk (os_path_join p n) c, (os_path_join p n).length ≤ v.1.length) →
    (WalkListNamesWf p rest → ∀ v ∈ os_walkList p rest, p.length < v.1.length) →
    (WalkListNamesWf p ((n, c) :: rest) →
      ∀ v ∈ os_walkList p ((n, c) :: rest), p.length < v.1.length) := by
  intro p n c rest ih1 ih2 H v hv
  rw [os_walkList_cons] at hv
  rcases List.mem_append.1 hv with hl | hr
  · have hwf : WalkNamesWf (os_path_join p n) c := by
      intro v2 hv2
      refine H.2 v2 ?_
      rw [os_walkList_cons]
      exact List.mem_append_left _ hv2
    have hjoin : p.length < (os_path_join p n).length := by
      have := H.1 (n, c) (List.mem_cons_self _ _)
      exact os_path_join_length_lt this.1 this.2
    exact lt_of_lt_of_le hjoin (ih1 hwf v hl)
  · refine ih2 ⟨fun nc hnc => H.1 nc (List.mem_cons_of_mem _ hnc), ?_⟩ v hr
    intro v2 hv2
    refine H.2 v2 ?_
    rw [os_walkList_cons]
    exact List.mem_append_right _ hv2

theorem walk_le_lengths :
    ∀ (p : String) (t : FsTree), WalkNamesWf p t →
      ∀ v ∈ os_walk p t, p.length ≤ v.1.length :=
  os_walk.induct
    (fun p t => WalkNamesWf p t → ∀ v ∈ os_walk p t, p.length ≤ v.1.length)
    (fun p l => WalkListNamesWf p l → ∀ v ∈ os_walkList p l, p.length < v.1.length)
    walkLen_case1 walkLen_case2 walkLen_case3

theorem walkList_lt_lengths :
    ∀ (p : String) (l : List (String × FsTree)), WalkListNamesWf p l →
      ∀ v ∈ os_walkList p l, p.length < v.1.length :=
  os_walkList.induct
    (fun p t => WalkNamesWf p t → ∀ v ∈ os_walk p t, p.length ≤ v.1.length)
    (fun p l => WalkListNamesWf p l → ∀ v ∈ os_walkList p l, p.length < v.1.length)
    walkLen_case1 walkLen_case2 walkLen_case3

/-- Within a well-formed walk, no visit below the root carries the root
path. -/
theorem walkList_path_ne (p : String) (t : FsTree) (H : WalkNamesWf p t) :
    ∀ v ∈ os_walkList p t.subdirs, v.1 ≠ p := by
  intro v hv
  cases t with
  | mk s f =>
    have hhead : ∀ nm ∈ s.map Prod.fst, nm ≠ "" ∧ ¬nm.data.head? = some '/' :=
      H (p, s.map Prod.fst, f) (List.mem_cons_self _ _)
    have h1 : ∀ nc ∈ s, nc.1 ≠ "" ∧ ¬nc.1.data.head? = some '/' := by
      intro nc hnc
      exact hhead nc.1 (List.mem_map_of_mem Prod.fst hnc)
    have h2 : ∀ v2 ∈ os_walkList p s, ∀ nm ∈ v2.2.1, nm ≠ "" ∧ ¬nm.data.head? = some '/' := by
      intro v2 hv2
      exact H v2 (List.mem_cons_of_mem _ hv2)
    have hlt := walkList_lt_lengths p s ⟨h1, h2⟩ v hv
    intro he
    rw [he] at hlt
    exact lt_irrefl _ hlt

/-! ## Helper lemmas: the crawl fold -/

theorem processWalkEntry_fst (root : String) (acc : List String × World)
    (v : String × List String × List String) :
    (processWalkEntry root acc v).1 = acc.1 ++ [_get_index_file_path v.1] := rfl

theorem processWalkEntry_fs (root : String) (acc : List String × World)
    (v : String × List String × List String) (q : String) :
    (processWalkEntry root acc v).2.fs q
      = if q = _get_index_file_path v.1 then some (visitIndexContent root v)
        else acc.2.fs q := rfl

theorem createFold_created (vs : List (String × List String × List String))
    (root : String) (acc : List String × World) :
    (vs.foldl (processWalkEntry root) acc).1
      = acc.1 ++ vs.map (fun v => _get_index_file_path v.1) := by
  induction vs generalizing acc with
  | nil => simp
  | cons v rest ih =>
    simp only [List.foldl_cons, List.map_cons, ih, processWalkEntry_fst]
    simp [List.append_assoc]

theorem create_index_files_created (root : String) (t : FsTree) (w : World) :
    (create_index_files root t w).1
      = (os_walk root t).map (fun v => _get_index_file_path v.1) := by
  rw [create_index_files, createFold_created]
  rfl

theorem createFold_fs_untouched (vs : List (String × List String × List String))
    (root : String) (acc : List String × World) (q : String)
    (hq : q ∉ vs.map (fun v => _get_index_file_path v.1)) :
    (vs.foldl (processWalkEntry root) acc).2.fs q = acc.2.fs q := by
  induction vs generalizing acc with
  | nil => rfl
  | cons v rest ih =>
    simp only [List.map_cons, List.mem_cons, not_or] at hq
    simp only [List.foldl_cons]
    rw [ih _ hq.2, processWalkEntry_fs, if_neg hq.1]

theorem createFold_fs_written (vs : List (String × List String × List String))
    (root : String) (acc : List String × World) (q : String)
    (hq : q ∈ vs.map (fun v => _get_index_file_path v.1)) :
    ((vs.foldl (processWalkEntry root) acc).2.fs q).isSome = true := by
  induction vs generalizing acc with
  | nil => cases hq
  | cons v rest ih =>
    simp only [List.foldl_cons]
    by_cases h : q ∈ rest.map (fun v => _get_index_file_path v.1)
    · exact ih _ h
    · simp only [List.map_cons, List.mem_cons] at hq
      rcases hq with he | hm
      · rw [createFold_fs_untouched _ _ _ _ h, processWalkEntry_fs, if_pos he]
        rfl
      · exact absurd hm h

/-- The disk after the crawl, expressed as a pure fold of writes over the
walk. -/
theorem createFold_fs_as_writes (vs : List (String × List String × List String))
    (root : String) (acc : List String × World) (q : String) :
    (vs.foldl (processWalkEntry root) acc).2.fs q
      = (vs.foldl (fun fs v =>
          fsWrite (_get_index_file_path v.1) (visitIndexContent root v) fs) acc.2.fs) q := by
  induction vs generalizing acc with
  | nil => rfl
  | cons v rest ih =>
    simp only [List.foldl_cons]
    rw [ih]
    congr 1

/-! ## Helper lemmas: cleanup -/

theorem cleanUpGo_step_ok {p : String} {w : World} (rest : List String)
    (h : (w.fs p).isSome = true) :
    cleanUpGo (p :: rest) w
      = cleanUpGo rest
          ⟨fun q => if q = p then none else w.fs q, w.out ++ ["Removing " ++ p]⟩ := by
  obtain ⟨c, hc⟩ := Option.isSome_iff_exists.1 h
  simp [cleanUpGo, pyPrint, os_unlink, hc]

theorem cleanUpGo_step_fail {p : String} {w : World} (rest : List String)
    (h : w.fs p = none) :
    cleanUpGo (p :: rest) w
      = (⟨w.fs, w.out ++ ["Removing " ++ p]⟩,
         some (PyExc.oserror ("[Errno 2] No such file or directory: " ++ p))) := by
  simp [cleanUpGo, pyPrint, os_unlink, h]

theorem cleanUpGo_success (paths : List String) (w : World) (hd : paths.Nodup)
    (he : ∀ p ∈ paths, (w.fs p).isSome = true) :
    (cleanUpGo paths w).2 = none ∧
    (∀ p ∈ paths, (cleanUpGo paths w).1.fs p = none) ∧
    (∀ q, q ∉ paths → (cleanUpGo paths w).1.fs q = w.fs q) := by
  induction paths generalizing w with
  | nil => exact ⟨rfl, by simp, fun q _ => rfl⟩
  | cons p rest ih =>
    have hp := he p (List.mem_cons_self _ _)
    rw [cleanUpGo_step_ok rest hp]
    have hnd := List.nodup_cons.1 hd
    have hrest : ∀ r ∈ rest,
        ((⟨fun q => if q = p then none else w.fs q,
           w.out ++ ["Removing " ++ p]⟩ : World).fs r).isSome = true := by
      intro r hr
      have hne : r ≠ p := fun he2 => hnd.1 (he2 ▸ hr)
      simp only [if_neg hne]
      exact he r (List.mem_cons_of_mem _ hr)
    obtain ⟨ha, hb, hc⟩ := ih _ hnd.2 hrest
    refine ⟨ha, ?_, ?_⟩
    · intro x hx
      rcases List.mem_cons.1 hx with hxe | hxm
      · rw [hxe]
        rw [hc p hnd.1]
        simp
      · exact hb x hxm
    · intro q hq
      simp only [List.mem_cons, not_or] at hq
      rw [hc q hq.2]
      simp [if_neg hq.1]

theorem cleanUpGo_fail (pre : List String) (bad : String) (post : List String)
    (w : World) (hd : pre.Nodup) (hpre : ∀ p ∈ pre, (w.fs p).isSome = true)
    (hbad : w.fs bad = none ∨ bad ∈ pre) :
    (cleanUpGo (pre ++ bad :: post) w).2
        = some (PyExc.oserror ("[Errno 2] No such file or directory: " ++ bad)) ∧
    (∀ p ∈ pre, (cleanUpGo (pre ++ bad :: post) w).1.fs p = none) ∧
    (∀ q, q ∉ pre → (cleanUpGo (pre ++ bad :: post) w).1.fs q = w.fs q) := by
  induction pre generalizing w with
  | nil =>
    have hb : w.fs bad = none := by
      rcases hbad with h | h
      · exact h
      · cases h
    rw [List.nil_append, cleanUpGo_step_fail post hb]
    exact ⟨rfl, by simp, fun q _ => rfl⟩
  | cons p rest ih =>
    have hp := hpre p (List.mem_cons_self _ _)
    rw [List.cons_append, cleanUpGo_step_ok (rest ++ bad :: post) hp]
    have hnd := List.nodup_cons.1 hd
    set w2 : World :=
      ⟨fun q => if q = p then none else w.fs q, w.out ++ ["Removing " ++ p]⟩ with hw2
    have hrest : ∀ r ∈ rest, (w2.fs r).isSome = true := by
      intro r hr
      have hne : r ≠ p := fun he2 => hnd.1 (he2 ▸ hr)
      simp only [hw2, if_neg hne]
      exact hpre r (List.mem_cons_of_mem _ hr)
    have hbad2 : w2.fs bad = none ∨ bad ∈ rest := by
      rcases hbad with h | h
      · by_cases hbp : bad = p
        · left; simp [hw2, hbp]
        · left; simp [hw2, hbp, h]
      · rcases List.mem_cons.1 h with hbe | hbm
        · left; simp [hw2, hbe]
        · right; exact hbm
    obtain ⟨ha, hb, hc⟩ := ih w2 hnd.2 hrest hbad2
    refine ⟨ha, ?_, ?_⟩
    · intro x hx
      rcases List.mem_cons.1 hx with hxe | hxm
      · rw [hxe, hc p hnd.1]
        simp [hw2]
      · exact hb x hxm
    · intro q hq
      simp only [List.mem_cons, not_or] at hq
      rw [hc q hq.2]
      simp [hw2, if_neg hq.1]

/-! ## Helper lemmas: the server and serve_dir -/

theorem run_server_fs (argv : List String) (b s : Option PyExc) (w : World) :
    (run_server argv b s w).1.fs = w.fs := by
  unfold run_server
  cases _get_server_port argv with
  | error e => rfl
  | ok port =>
    cases b with
    | some e => rfl
    | none =>
      cases s with
      | none => rfl
      | some e => cases e <;> simp [isExceptionSubclass, pyPrint]

theorem run_server_port_err {argv : List String} {e : PyExc}
    (h : _get_server_port argv = Except.error e) (b s : Option PyExc) (w : World) :
    run_server argv b s w = (w, some e) := by
  unfold run_server
  rw [h]

theorem run_server_bind_err {argv : List String} {port : Int}
    (h : _get_server_port argv = Except.ok port) (e : PyExc) (s : Option PyExc) (w : World) :
    run_server argv (some e) s w = (w, some e) := by
  unfold run_server
  rw [h]

theorem run_server_interrupt {argv : List String} {port : Int}
    (h : _get_server_port argv = Except.ok port) (w : World) :
    run_server argv none (some PyExc.keyboardInterrupt) w
      = (pyPrint "User interrupted, stopping"
          (pyPrint ("Your images are at http://127.0.0.1:" ++ toString port ++ "/"
            ++ INDEX_FILE_NAME) w), none) := by
  unfold run_server
  rw [h]

theorem run_server_caught {argv : List String} {port : Int} {e : PyExc}
    (h : _get_server_port argv = Except.ok port) (he : isExceptionSubclass e = true)
    (w : World) :
    run_server argv none (some e) w
      = (pyPrint "Unhandled exception in server, stopping"
          (pyPrint (excStr e)
            (pyPrint ("Your images are at http://127.0.0.1:" ++ toString port ++ "/"
              ++ INDEX_FILE_NAME) w)), none) := by
  unfold run_server
  rw [h]
  cases e <;> simp_all [isExceptionSubclass]

theorem serve_dir_ok {d : String} {t : FsTree} {argv : List String}
    {b s : Option PyExc} {w w2 : World}
    (hrs : run_server argv b s (create_index_files d t w).2 = (w2, none)) :
    serve_dir d t argv b s w = clean_up (create_index_files d t w).1 w2 := by
  simp only [serve_dir]
  rw [hrs]

theorem serve_dir_err {d : String} {t : FsTree} {argv : List String}
    {b s : Option PyExc} {w w2 : World} {e : PyExc}
    (hrs : run_server argv b s (create_index_files d t w).2 = (w2, some e)) :
    serve_dir d t argv b s w = (w2, some e) := by
  simp only [serve_dir]
  rw [hrs]

/-! ## Claims -/

/-- C9: the server port is int(argv[1]) when a first argument is present and
8000 when none is given; a non-numeric argument raises a ValueError before
the try block of run_server, so it propagates out of serve_dir even though a
ValueError is an Exception subclass that the except clause could catch. -/
theorem claim9_port_selection :
    (_get_server_port [] = Except.ok 8000) ∧
    (∀ prog : String, _get_server_port [prog] = Except.ok 8000) ∧
    (∀ (prog arg : String) (rest : List String) (n : Int), pyIntParse arg = some n →
      _get_server_port (prog :: arg :: rest) = Except.ok n) ∧
    (∀ (prog arg : String) (rest : List String), pyIntParse arg = none →
      ∀ (d : String) (t : FsTree) (b s : Option PyExc) (w : World),
        serve_dir d t (prog :: arg :: rest) b s w
          = ((create_index_files d t w).2,
             some (PyExc.valueError ("invalid literal for int() with base 10: " ++ arg))) ∧
        isExceptionSubclass
          (PyExc.valueError ("invalid literal for int() with base 10: " ++ arg)) = true) := by
  refine ⟨rfl, fun prog => rfl, ?_, ?_⟩
  · intro prog arg rest n hp
    simp [_get_server_port, hp]
  · intro prog arg rest hp d t b s w
    have herr : _get_server_port (prog :: arg :: rest)
        = Except.error (PyExc.valueError ("invalid literal for int() with base 10: " ++ arg)) := by
      simp [_get_server_port, hp]
    exact ⟨serve_dir_err (run_server_port_err herr b s _), rfl⟩

/-- Witness for C9 at concrete inputs: port 8080 parses and is used, a
missing argument yields 8000, and the string abc fails to parse so the
ValueError propagates out of serve_dir with the crawl already done and
cleanup never reached. -/
theorem claim9_witness :
    _get_server_port ["imageme.py"] = Except.ok 8000 ∧
    _get_server_port ["imageme.py", "8080"] = Except.ok 8080 ∧
    serve_dir "." sampleTree ["imageme.py", "abc"] none none emptyWorld
      = ((create_index_files "." sampleTree emptyWorld).2,
         some (PyExc.valueError "invalid literal for int() with base 10: abc")) :=
  ⟨claim9_port_selection.2.1 "imageme.py",
   claim9_port_selection.2.2.1 "imageme.py" "8080" [] 8080 (by decide),
   (claim9_port_selection.2.2.2 "imageme.py" "abc" [] (by decide) "." sampleTree
      none none emptyWorld).1⟩

/-- C4 counterexample: for the renderer given exactly the three images a.png,
b.png, c.png with the 3-per-row layout, the generated document does contain
exactly one opening tr line, but it contains two closing tr lines, not one:
the row is closed at the third image and then the loop epilogue appends one
more closing tr unconditionally, so the markup has an unmatched closing tag
and the claim as stated is false. -/
theorem claim4_counterexample :
    ((_create_index_file_lines "." "." ["a.png", "b.png", "c.png"] []).count "<tr>" = 1) ∧
    ((_create_index_file_lines "." "." ["a.png", "b.png", "c.png"] []).count "</tr>" = 2) ∧
    ¬((_create_index_file_lines "." "." ["a.png", "b.png", "c.png"] []).count "</tr>" = 1) := by
  refine ⟨by decide, by decide, by decide⟩

/-- C4 amended: with exactly 3 image files and the 3-images-per-row layout
the document contains exactly one opening tr line with exactly three td cell
openings and three td cell closings (so there is no trailing empty row and no
second row), but it contains two closing tr lines: the one matching the
opening plus one unmatched closing tr always appended after the loop. -/
theorem claim4_amended_row_markup (root_dir location : String) (dirs : List String)
    (f1 f2 f3 : String) :
    ((_create_index_file_lines root_dir location [f1, f2, f3] dirs).count "<tr>" = 1) ∧
    ((_create_index_file_lines root_dir location [f1, f2, f3] dirs).count "</tr>" = 2) ∧
    ((_create_index_file_lines root_dir location [f1, f2, f3] dirs).count "    <td>" = 3) ∧
    ((_create_index_file_lines root_dir location [f1, f2, f3] dirs).count "    </td>" = 3) := by
  refine ⟨?_, ?_, ?_, ?_⟩ <;>
    (rw [count_lines_three _ _ _ _ _ _ _ (by decide) (by decide) (by decide) (by decide)
      (by decide) (by decide)]; decide)

/-- C8: cleanup walks the ledger in order and unlinks each path with no
existence check; when a path is missing the OSError is not caught and
propagates out of clean_up, with every earlier ledger path already removed
and every other path on disk, in particular the later ledger paths, exactly
as before. -/
theorem claim8_cleanup_failure (pre : List String) (bad : String) (post : List String)
    (w : World) (hd : pre.Nodup) (hpre : ∀ p ∈ pre, (w.fs p).isSome = true)
    (hbad : w.fs bad = none) :
    (clean_up (pre ++ bad :: post) w).2
        = some (PyExc.oserror ("[Errno 2] No such file or directory: " ++ bad)) ∧
    (∀ p ∈ pre, (clean_up (pre ++ bad :: post) w).1.fs p = none) ∧
    (∀ q, q ∉ pre → (clean_up (pre ++ bad :: post) w).1.fs q = w.fs q) := by
  unfold clean_up
  exact cleanUpGo_fail pre bad post (pyPrint "Cleaning up" w) hd hpre (Or.inl hbad)

/-- Witness for C8: cleaning up the ledger a, b, c over a disk holding only a
and c raises the OSError for b, with a already removed and c untouched. -/
theorem claim8_witness :
    (clean_up ["a", "b", "c"] claim8World).2
        = some (PyExc.oserror "[Errno 2] No such file or directory: b") ∧
    (clean_up ["a", "b", "c"] claim8World).1.fs "a" = none ∧
    (clean_up ["a", "b", "c"] claim8World).1.fs "c" = some "xc" :=
  ⟨(claim8_cleanup_failure ["a"] "b" ["c"] claim8World (by decide) (by decide) rfl).1,
   (claim8_cleanup_failure ["a"] "b" ["c"] claim8World (by decide) (by decide) rfl).2.1
      "a" (by decide),
   by
     have h := (claim8_cleanup_failure ["a"] "b" ["c"] claim8World (by decide) (by decide)
        rfl).2.2 "c" (by decide)
     calc (clean_up ["a", "b", "c"] claim8World).1.fs "c"
         = (clean_up (["a"] ++ "b" :: ["c"]) claim8World).1.fs "c" := rfl
       _ = claim8World.fs "c" := h
       _ = some "xc" := rfl⟩

/-- C10: a file name that is just a dot followed by one of the seven
extensions does not match IMAGE_FILE_REGEX, because the pattern demands at
least one character before the dot; consequently such a name is never in the
image list the crawl hands to the renderer for any visited directory. -/
theorem claim10_bare_extension_never_image :
    (∀ ext ∈ IMAGE_EXTS, reMatchImage ("." ++ ext) = false) ∧
    (∀ (root : String) (t : FsTree) (v : String × List String × List String),
      v ∈ os_walk root t → ∀ ext ∈ IMAGE_EXTS,
        ("." ++ ext) ∉ pySorted (v.2.2.filter (fun f => reMatchImage f))) := by
  have h1 : ∀ ext ∈ IMAGE_EXTS, reMatchImage ("." ++ ext) = false := by decide
  refine ⟨h1, ?_⟩
  intro root t v _ ext hext hmem
  rw [pySorted_mem] at hmem
  have h2 := (List.mem_filter.1 hmem).2
  rw [h1 ext hext] at h2
  cases h2

/-- Witness for C10: the name .png is not matched and is absent from the
image list of a directory that contains it. -/
theorem claim10_witness :
    reMatchImage ".png" = false ∧
    (".png" : String) ∉ pySorted ((["x.png", ".png"].filter (fun f => reMatchImage f))) :=
  ⟨claim10_bare_extension_never_image.1 "png" (by decide),
   claim10_bare_extension_never_image.2 "." (FsTree.mk [] ["x.png", ".png"])
     (".", [], ["x.png", ".png"]) (by decide) "png" (by decide)⟩

/-- C1 evaluated on the code: the TCPServer constructor runs before the try
block of run_server, so an exception raised while creating or binding the
server (for example EADDRINUSE when the port is in use) propagates out of
serve_dir uncaught: nothing more is printed, clean_up never runs and every
created index file stays on disk.  Only an exception raised inside
serve_forever is absorbed: for any Exception subclass the server stops with
no exception escaping, as the final conjunct shows. -/
theorem claim1_bind_exception_skips_cleanup (d : String) (t : FsTree)
    (argv : List String) (port : Int) (h : _get_server_port argv = Except.ok port)
    (e : PyExc) (s : Option PyExc) (w : World) :
    serve_dir d t argv (some e) s w = ((create_index_files d t w).2, some e) ∧
    (serve_dir d t argv (some e) s w).1.out = (create_index_files d t w).2.out ∧
    (∀ p ∈ (create_index_files d t w).1,
      ((serve_dir d t argv (some e) s w).1.fs p).isSome = true) ∧
    (∀ e2 : PyExc, isExceptionSubclass e2 = true →
      (run_server argv none (some e2) (create_index_files d t w).2).2 = none) := by
  have hserve : serve_dir d t argv (some e) s w = ((create_index_files d t w).2, some e) :=
    serve_dir_err (run_server_bind_err h e s _)
  refine ⟨hserve, by rw [hserve], ?_, ?_⟩
  · intro p hp
    rw [hserve]
    rw [create_index_files_created] at hp
    exact createFold_fs_written _ _ _ _ hp
  · intro e2 he2
    rw [run_server_caught h he2]

/-- Witness for C1: on the sample tree with default port, a bind failure
propagates out of serve_dir with the root index file still on disk, while a
socket fault inside serve_forever is caught by run_server. -/
theorem claim1_witness :
    serve_dir "." sampleTree ["imageme.py"]
        (some (PyExc.exception "[Errno 98] Address already in use")) none emptyWorld
      = ((create_index_files "." sampleTree emptyWorld).2,
         some (PyExc.exception "[Errno 98] Address already in use")) ∧
    (((serve_dir "." sampleTree ["imageme.py"]
        (some (PyExc.exception "[Errno 98] Address already in use")) none
        emptyWorld).1.fs "./imageme.html").isSome = true) ∧
    (run_server ["imageme.py"] none (some (PyExc.exception "broken pipe"))
        (create_index_files "." sampleTree emptyWorld).2).2 = none :=
  ⟨(claim1_bind_exception_skips_cleanup "." sampleTree ["imageme.py"] 8000 rfl
      (PyExc.exception "[Errno 98] Address already in use") none emptyWorld).1,
   (claim1_bind_exception_skips_cleanup "." sampleTree ["imageme.py"] 8000 rfl
      (PyExc.exception "[Errno 98] Address already in use") none emptyWorld).2.2.1
      "./imageme.html" (by decide),
   (claim1_bind_exception_skips_cleanup "." sampleTree ["imageme.py"] 8000 rfl
      (PyExc.exception "[Errno 98] Address already in use") none emptyWorld).2.2.2
      (PyExc.exception "broken pipe") rfl⟩

/-- C2: every path in the ledger returned by the crawl carries a file on disk
the moment the crawl finishes, and when a full run ends through an immediate
KeyboardInterrupt in serve_forever, cleanup removes them: afterwards none of
the ledgered paths exists and no exception escapes. -/
theorem claim2_roundtrip (d : String) (t : FsTree) (argv : List String) (port : Int)
    (h : _get_server_port argv = Except.ok port) (w : World)
    (hnd : (create_index_files d t w).1.Nodup) :
    (∀ p ∈ (create_index_files d t w).1,
      ((create_index_files d t w).2.fs p).isSome = true) ∧
    (serve_dir d t argv none (some PyExc.keyboardInterrupt) w).2 = none ∧
    (∀ p ∈ (create_index_files d t w).1,
      (serve_dir d t argv none (some PyExc.keyboardInterrupt) w).1.fs p = none) := by
  have hexists : ∀ p ∈ (create_index_files d t w).1,
      ((create_index_files d t w).2.fs p).isSome = true := by
    intro p hp
    rw [create_index_files_created] at hp
    exact createFold_fs_written _ _ _ _ hp
  have hserve : serve_dir d t argv none (some PyExc.keyboardInterrupt) w
      = clean_up (create_index_files d t w).1
          (pyPrint "User interrupted, stopping"
            (pyPrint ("Your images are at http://127.0.0.1:" ++ toString port ++ "/"
              ++ INDEX_FILE_NAME) (create_index_files d t w).2)) :=
    serve_dir_ok (run_server_interrupt h _)
  have hfs : (pyPrint "User interrupted, stopping"
      (pyPrint ("Your images are at http://127.0.0.1:" ++ toString port ++ "/"
        ++ INDEX_FILE_NAME) (create_index_files d t w).2)).fs
      = (create_index_files d t w).2.fs := rfl
  have hclean := cleanUpGo_success (create_index_files d t w).1
    (pyPrint "Cleaning up"
      (pyPrint "User interrupted, stopping"
        (pyPrint ("Your images are at http://127.0.0.1:" ++ toString port ++ "/"
          ++ INDEX_FILE_NAME) (create_index_files d t w).2))) hnd
    (by intro p hp; exact hexists p hp)
  refine ⟨hexists, ?_, ?_⟩
  · rw [hserve]
    exact hclean.1
  · intro p hp
    rw [hserve]
    exact hclean.2.1 p hp

/-- Witness for C2: on the sample tree both index files exist after the
crawl, and after the interrupted full run both are gone with no exception. -/
theorem claim2_witness :
    (((create_index_files "." sampleTree emptyWorld).2.fs "./imageme.html").isSome = true) ∧
    (serve_dir "." sampleTree ["imageme.py"] none (some PyExc.keyboardInterrupt)
        emptyWorld).2 = none ∧
    (serve_dir "." sampleTree ["imageme.py"] none (some PyExc.keyboardInterrupt)
        emptyWorld).1.fs "./sub/imageme.html" = none :=
  ⟨(claim2_roundtrip "." sampleTree ["imageme.py"] 8000 rfl emptyWorld (by decide)).1
      "./imageme.html" (by decide),
   (claim2_roundtrip "." sampleTree ["imageme.py"] 8000 rfl emptyWorld (by decide)).2.1,
   (claim2_roundtrip "." sampleTree ["imageme.py"] 8000 rfl emptyWorld (by decide)).2.2
      "./sub/imageme.html" (by decide)⟩

/-- Parent-before-child in the walk: whenever a directory at path p occurs in
the walk and has a subdirectory n, the two paths p and p/n appear in that
order in the walk path sequence. -/
theorem occurs_sublist {root : String} {t : FsTree} {p : String} {s : FsTree}
    (h : Occurs root t p s) :
    ∀ n c, (n, c) ∈ s.subdirs →
      [p, os_path_join p n].Sublist ((os_walk root t).map Prod.fst) := by
  induction h with
  | refl q u =>
    intro n c hm
    cases u with
    | mk sd fl =>
      simp only [FsTree.subdirs] at hm
      have hhead : (os_path_join q n, c.subdirs.map Prod.fst, c.files)
          ∈ os_walk (os_path_join q n) c := by
        cases c with
        | mk s2 f2 => exact List.mem_cons_self _ _
      have hmem : (os_path_join q n, c.subdirs.map Prod.fst, c.files)
          ∈ os_walkList q sd := mem_os_walkList.2 ⟨n, c, hm, hhead⟩
      have hmap : os_path_join q n ∈ (os_walkList q sd).map Prod.fst :=
        List.mem_map_of_mem Prod.fst hmem
      show [q, os_path_join q n].Sublist
        ((os_walk q (FsTree.mk sd fl)).map Prod.fst)
      rw [os_walk, List.map_cons]
      exact List.cons_sublist_cons.2 (List.singleton_sublist.2 hmap)
  | child n2 c2 hmem hrec ih =>
    intro n c hm
    rename_i p2 t2 q2 s2
    have hstep : (os_walk (os_path_join p2 n2) c2).Sublist
        (os_walkList p2 t2.subdirs) := os_walk_sublist_walkList hmem
    have h2 := (ih n c hm).trans (hstep.map Prod.fst)
    cases t2 with
    | mk sd fl =>
      rw [os_walk, List.map_cons]
      exact h2.cons _

/-- C6: the ledger returned by create_index_files is exactly one entry per
visited directory, the directory path joined with INDEX_FILE_NAME, in
traversal order; every path not in the ledger is untouched on disk, every
ledger path holds a created file, and every parent index path appears in the
ledger before the index paths of its subdirectories. -/
theorem claim6_ledger_exact (root : String) (t : FsTree) (w : World) :
    ((create_index_files root t w).1
        = (os_walk root t).map (fun v => _get_index_file_path v.1)) ∧
    (∀ q, q ∉ (create_index_files root t w).1 →
        (create_index_files root t w).2.fs q = w.fs q) ∧
    (∀ p ∈ (create_index_files root t w).1,
        ((create_index_files root t w).2.fs p).isSome = true) ∧
    (∀ (p : String) (s : FsTree), Occurs root t p s →
      ∀ n c, (n, c) ∈ s.subdirs →
        [_get_index_file_path p, _get_index_file_path (os_path_join p n)].Sublist
          ((create_index_files root t w).1)) := by
  have hcre := create_index_files_created root t w
  refine ⟨hcre, ?_, ?_, ?_⟩
  · intro q hq
    rw [hcre] at hq
    exact createFold_fs_untouched _ _ _ _ hq
  · intro p hp
    rw [hcre] at hp
    exact createFold_fs_written _ _ _ _ hp
  · intro p s hocc n c hm
    have h1 := (occurs_sublist hocc n c hm).map _get_index_file_path
    rw [hcre]
    simpa [List.map_map] using h1

/-- Witness for C6: on the sample tree the ledger is the two index paths in
walk order, the root path is written, an unrelated path is untouched, and the
parent root index precedes the sub index in the ledger. -/
theorem claim6_witness :
    ((create_index_files "." sampleTree emptyWorld).1
        = ["./imageme.html", "./sub/imageme.html"]) ∧
    (create_index_files "." sampleTree emptyWorld).2.fs "./other.txt" = none ∧
    (((create_index_files "." sampleTree emptyWorld).2.fs "./imageme.html").isSome = true) ∧
    ["./imageme.html", "./sub/imageme.html"].Sublist
      ((create_index_files "." sampleTree emptyWorld).1) := by
  refine ⟨?_, ?_, ?_, ?_⟩
  · rw [(claim6_ledger_exact "." sampleTree emptyWorld).1]
    decide
  · rw [(claim6_ledger_exact "." sampleTree emptyWorld).2.1 "./other.txt" (by decide)]
    rfl
  · exact (claim6_ledger_exact "." sampleTree emptyWorld).2.2.1 "./imageme.html" (by decide)
  · have h := (claim6_ledger_exact "." sampleTree emptyWorld).2.2.2 "."
      sampleTree (Occurs.refl "." sampleTree)
      "sub" (FsTree.mk [] ["c.jpg", "notes.txt"])
      (List.mem_singleton.2 rfl)
    exact h

/-! ## Helper lemmas: the second crawl -/

theorem addIndexFileList_map_fst (l : List (String × FsTree)) :
    (addIndexFileList l).map Prod.fst = l.map Prod.fst := by
  induction l with
  | nil => rfl
  | cons nc rest ih =>
    cases nc with
    | mk n c => simp [addIndexFileList, ih]

theorem os_walk_addIndexFile :
    ∀ (p : String) (t : FsTree),
      os_walk p (addIndexFile t)
        = (os_walk p t).map (fun v =>
            (v.1, v.2.1, if INDEX_FILE_NAME ∈ v.2.2 then v.2.2
              else v.2.2 ++ [INDEX_FILE_NAME])) :=
  os_walk.induct
    (fun p t => os_walk p (addIndexFile t)
      = (os_walk p t).map (fun v =>
          (v.1, v.2.1, if INDEX_FILE_NAME ∈ v.2.2 then v.2.2
            else v.2.2 ++ [INDEX_FILE_NAME])))
    (fun p l => os_walkList p (addIndexFileList l)
      = (os_walkList p l).map (fun v =>
          (v.1, v.2.1, if INDEX_FILE_NAME ∈ v.2.2 then v.2.2
            else v.2.2 ++ [INDEX_FILE_NAME])))
    (by
      intro p s f ih
      show os_walk p (FsTree.mk (addIndexFileList s)
          (if INDEX_FILE_NAME ∈ f then f else f ++ [INDEX_FILE_NAME])) = _
      rw [os_walk]
      rw [os_walk]
      simp only [List.map_cons, addIndexFileList_map_fst, ih])
    (by intro p; rfl)
    (by
      intro p n c rest ih1 ih2
      show os_walkList p ((n, addIndexFile c) :: addIndexFileList rest) = _
      rw [os_walkList_cons, os_walkList_cons, List.map_append, ih1, ih2])

/-- Inserting the index name into a listing does not change the image
filter, because the index file name matches no image extension. -/
theorem filter_insert_index (files : List String) :
    ((if INDEX_FILE_NAME ∈ files then files
      else files ++ [INDEX_FILE_NAME]).filter (fun f => reMatchImage f))
      = files.filter (fun f => reMatchImage f) := by
  by_cases h : INDEX_FILE_NAME ∈ files
  · rw [if_pos h]
  · rw [if_neg h, List.filter_append]
    have : ([INDEX_FILE_NAME].filter (fun f => reMatchImage f)) = [] := by decide
    rw [this, List.append_nil]

theorem writeFold_not_mem (root : String)
    (vs : List (String × List String × List String)) (g : Fs) (q : String)
    (hq : q ∉ vs.map (fun v => _get_index_file_path v.1)) :
    (vs.foldl (fun fs v =>
      fsWrite (_get_index_file_path v.1) (visitIndexContent root v) fs) g) q = g q := by
  induction vs generalizing g with
  | nil => rfl
  | cons v rest ih =>
    simp only [List.map_cons, List.mem_cons, not_or] at hq
    simp only [List.foldl_cons]
    rw [ih _ hq.2]
    simp [fsWrite, hq.1]

theorem writeFold_mem_indep (root : String)
    (vs : List (String × List String × List String)) (g g2 : Fs) (q : String)
    (hq : q ∈ vs.map (fun v => _get_index_file_path v.1)) :
    (vs.foldl (fun fs v =>
      fsWrite (_get_index_file_path v.1) (visitIndexContent root v) fs) g) q
      = (vs.foldl (fun fs v =>
          fsWrite (_get_index_file_path v.1) (visitIndexContent root v) fs) g2) q := by
  induction vs generalizing g g2 with
  | nil => cases hq
  | cons v rest ih =>
    simp only [List.foldl_cons]
    by_cases h : q ∈ rest.map (fun v => _get_index_file_path v.1)
    · exact ih _ _ h
    · simp only [List.map_cons, List.mem_cons] at hq
      rcases hq with he | hm
      · rw [writeFold_not_mem _ _ _ _ h, writeFold_not_mem _ _ _ _ h]
        simp [fsWrite, he]
      · exact absurd hm h

/-- C7: the index file name never matches the image pattern, so a second
crawl over the tree as left by the first run (every listing now also holds
INDEX_FILE_NAME) returns the same ledger and overwrites every index file
with byte-identical content. -/
theorem claim7_idempotent (root : String) (t : FsTree) (w : World) :
    (reMatchImage INDEX_FILE_NAME = false) ∧
    ((create_index_files root (addIndexFile t) (create_index_files root t w).2).1
        = (create_index_files root t w).1) ∧
    (∀ p ∈ (create_index_files root t w).1,
      (create_index_files root (addIndexFile t) (create_index_files root t w).2).2.fs p
        = (create_index_files root t w).2.fs p) := by
  have hmatch : reMatchImage INDEX_FILE_NAME = false := by decide
  have hwalk := os_walk_addIndexFile root t
  have hpaths : (os_walk root (addIndexFile t)).map (fun v => _get_index_file_path v.1)
      = (os_walk root t).map (fun v => _get_index_file_path v.1) := by
    rw [hwalk, List.map_map]
    rfl
  have hcontent : ∀ v, visitIndexContent root
      ((fun v => (v.1, v.2.1, if INDEX_FILE_NAME ∈ v.2.2 then v.2.2
        else v.2.2 ++ [INDEX_FILE_NAME])) v) = visitIndexContent root v := by
    intro v
    simp only [visitIndexContent, filter_insert_index]
  refine ⟨hmatch, ?_, ?_⟩
  · rw [create_index_files_created, create_index_files_created, hpaths]
  · intro p hp
    rw [create_index_files_created] at hp
    show ((os_walk root (addIndexFile t)).foldl (processWalkEntry root)
      ([], (create_index_files root t w).2)).2.fs p = _
    rw [createFold_fs_as_writes, hwalk, List.foldl_map]
    have hfold : ∀ (g : Fs),
        ((os_walk root t).foldl (fun fs v =>
          fsWrite (_get_index_file_path
              ((fun v => (v.1, v.2.1, if INDEX_FILE_NAME ∈ v.2.2 then v.2.2
                else v.2.2 ++ [INDEX_FILE_NAME])) v).1)
            (visitIndexContent root
              ((fun v => (v.1, v.2.1, if INDEX_FILE_NAME ∈ v.2.2 then v.2.2
                else v.2.2 ++ [INDEX_FILE_NAME])) v)) fs) g)
        = ((os_walk root t).foldl (fun fs v =>
            fsWrite (_get_index_file_path v.1) (visitIndexContent root v) fs) g) := by
      intro g
      congr 1
      funext fs v
      rw [hcontent v]
    rw [hfold]
    have h1 : (create_index_files root t w).2.fs p
        = ((os_walk root t).foldl (fun fs v =>
            fsWrite (_get_index_file_path v.1) (visitIndexContent root v) fs) w.fs) p := by
      show ((os_walk root t).foldl (processWalkEntry root) ([], w)).2.fs p = _
      rw [createFold_fs_as_writes]
    rw [h1]
    exact writeFold_mem_indep root _ _ _ p hp

/-- Witness for C7: on the sample tree the second crawl returns the same
ledger and leaves the same bytes at the root index path. -/
theorem claim7_witness :
    (reMatchImage INDEX_FILE_NAME = false) ∧
    ((create_index_files "." (addIndexFile sampleTree)
        (create_index_files "." sampleTree emptyWorld).2).1
      = (create_index_files "." sampleTree emptyWorld).1) ∧
    ((create_index_files "." (addIndexFile sampleTree)
        (create_index_files "." sampleTree emptyWorld).2).2.fs "./imageme.html"
      = (create_index_files "." sampleTree emptyWorld).2.fs "./imageme.html") :=
  ⟨(claim7_idempotent "." sampleTree emptyWorld).1,
   (claim7_idempotent "." sampleTree emptyWorld).2.1,
   (claim7_idempotent "." sampleTree emptyWorld).2.2 "./imageme.html" (by decide)⟩

/-! ## Helper lemmas: membership in the rendered lines -/

theorem galleryFold_mem_sup (imgs : List String) (h : List String) (c : Nat)
    (x : String) (hx : x ∈ (imgs.foldl galleryStep (h, c)).1) :
    x ∈ h ∨ x = "<tr>" ∨ x = "</tr>" ∨ ∃ f ∈ imgs, x ∈ cellLines f := by
  induction imgs generalizing h c with
  | nil => exact Or.inl hx
  | cons f rest ih =>
    simp only [List.foldl_cons] at hx
    have hx2 := ih (galleryStep (h, c) f).1 (galleryStep (h, c) f).2 hx
    have hsub : ∀ y, y ∈ (galleryStep (h, c) f).1 →
        y ∈ h ∨ y = "<tr>" ∨ y = "</tr>" ∨ y ∈ cellLines f := by
      intro y hy
      simp only [galleryStep] at hy
      split at hy <;> split at hy <;>
        (simp only [List.mem_append, List.mem_singleton] at hy; tauto)
    rcases hx2 with hy | hy | hy | ⟨g, hg, hy⟩
    · rcases hsub x hy with h2 | h2 | h2 | h2
      · exact Or.inl h2
      · exact Or.inr (Or.inl h2)
      · exact Or.inr (Or.inr (Or.inl h2))
      · exact Or.inr (Or.inr (Or.inr ⟨f, List.mem_cons_self _ _, h2⟩))
    · exact Or.inr (Or.inl hy)
    · exact Or.inr (Or.inr (Or.inl hy))
    · exact Or.inr (Or.inr (Or.inr ⟨g, List.mem_cons_of_mem _ hg, hy⟩))

theorem galleryStep_fst (h : List String) (c : Nat) (f : String) :
    (galleryStep (h, c) f).1
      = (if c = 1 then h ++ ["<tr>"] else h) ++ cellLines f
          ++ (if c = IMAGES_PER_ROW then ["</tr>"] else []) := by
  simp only [galleryStep, IMAGES_PER_ROW]
  split <;> split <;> simp [List.append_assoc]

theorem galleryFold_mem_acc (imgs : List String) (h : List String) (c : Nat)
    (x : String) (hx : x ∈ h) : x ∈ (imgs.foldl galleryStep (h, c)).1 := by
  rw [galleryFold_append]
  exact List.mem_append_left _ hx

theorem galleryFold_mem_cell (imgs : List String) (h : List String) (c : Nat)
    (f : String) (hf : f ∈ imgs) (x : String) (hx : x ∈ cellLines f) :
    x ∈ (imgs.foldl galleryStep (h, c)).1 := by
  induction imgs generalizing h c with
  | nil => cases hf
  | cons g rest ih =>
    simp only [List.foldl_cons]
    have hpair : rest.foldl galleryStep (galleryStep (h, c) g)
        = rest.foldl galleryStep ((galleryStep (h, c) g).1, (galleryStep (h, c) g).2) := rfl
    rw [hpair]
    rcases List.mem_cons.1 hf with he | hm
    · refine galleryFold_mem_acc rest _ _ x ?_
      subst he
      rw [galleryStep_fst, List.append_assoc]
      exact List.mem_append_right _ (List.mem_append_left _ hx)
    · exact ih _ _ hm

/-- The image cell line for a name never occurs among the navigation
lines. -/
theorem imgLine_not_in_nav (f : String) (entries : List String) :
    ("        <img class=\"image\" src=\"" ++ f ++ "\">")
      ∉ (entries.map navEntryLines).flatten := by
  induction entries with
  | nil => simp
  | cons e rest ih =>
    simp only [List.map_cons, List.flatten_cons, List.mem_append, not_or]
    refine ⟨?_, ih⟩
    intro hmem
    simp only [navEntryLines, List.mem_cons, List.not_mem_nil] at hmem
    rcases hmem with h1 | h1 | h1 | h1
    · rw [strAppend_assoc] at h1
      exact strAppend_ne_lit (f ++ "\">") (by decide) h1
    · rw [strAppend_assoc] at h1
      rw [show "    <a href=\"" ++ (e ++ "/" ++ INDEX_FILE_NAME) ++ "\">" ++ e ++ "</a>"
          = "    <a href=\"" ++ ((e ++ "/" ++ INDEX_FILE_NAME) ++ ("\">" ++ (e ++ "</a>")))
          from by simp [strAppend_assoc]] at h1
      exact strAppend_ne (f ++ "\">") ((e ++ "/" ++ INDEX_FILE_NAME) ++ ("\">" ++ (e ++ "</a>")))
        (by decide) (by decide) h1
    · rw [strAppend_assoc] at h1
      exact strAppend_ne_lit (f ++ "\">") (by decide) h1
    · exact h1

theorem imgLine_ne_lit (f : String) {t : String}
    (h : listIsPre "        <img class=\"image\" src=\"".data t.data = false) :
    "        <img class=\"image\" src=\"" ++ f ++ "\">" ≠ t := by
  rw [strAppend_assoc]
  exact strAppend_ne_lit (f ++ "\">") h

theorem imgLine_ne_append (f : String) {q : String} (y : String)
    (h1 : listIsPre "        <img class=\"image\" src=\"".data q.data = false)
    (h2 : listIsPre q.data "        <img class=\"image\" src=\"".data = false) :
    "        <img class=\"image\" src=\"" ++ f ++ "\">" ≠ q ++ y := by
  rw [strAppend_assoc]
  exact strAppend_ne (f ++ "\">") y h1 h2

/-- The gallery contains an image cell line for every name in the image
list. -/
theorem imgLine_in_lines (root loc : String) (imgs dirs : List String) (f : String)
    (hf : f ∈ imgs) :
    ("        <img class=\"image\" src=\"" ++ f ++ "\">")
      ∈ _create_index_file_lines root loc imgs dirs := by
  simp only [_create_index_file_lines]
  refine List.mem_append_left _ (List.mem_append_left _ ?_)
  refine galleryFold_mem_cell imgs _ 1 f hf _ ?_
  simp [cellLines]

/-- The image cell line for a name never occurs among the fixed skeleton
lines before the navigation block, whatever the header text is. -/
theorem imgLine_not_in_head (f ht : String) :
    ("        <img class=\"image\" src=\"" ++ f ++ "\">") ∉
      (["<!DOCTYPE html>", "<html>", "    <head>",
        "        <title>imageMe</title>        <style>",
        "            html, body \x7bmargin: 0;padding: 0;\x7d",
        "            .header \x7btext-align: right;\x7d",
        "            .content \x7b",
        "                padding: 3em;",
        "                padding-left: 4em;",
        "                padding-right: 4em;",
        "            \x7d",
        "            .image \x7bmax-width: 100%; border-radius: 0.3em;\x7d",
        "            td \x7bwidth: " ++ TD_WIDTH_STR ++ "%;\x7d",
        "        </style>", "    </head>", "    <body>",
        "    <div class=\"content\">",
        "        <h2 class=\"header\">" ++ ht ++ "</h2>",
        "        <hr>"] : List String) := by
  intro hmem
  simp only [List.mem_cons, List.not_mem_nil, or_false] at hmem
  rcases hmem with h|h|h|h|h|h|h|h|h|h|h|h|h|h|h|h|h|h|h <;>
    first
      | exact imgLine_ne_lit f (by decide) h
      | (rw [strAppend_assoc "            td \x7bwidth: " TD_WIDTH_STR "%;\x7d"] at h
         exact imgLine_ne_append f _ (by decide) (by decide) h)
      | (rw [strAppend_assoc "        <h2 class=\"header\">" ht "</h2>"] at h
         exact imgLine_ne_append f _ (by decide) (by decide) h)

/-- Conversely, an image cell line occurs in the rendered lines only for
names of the image list: no other file name ever appears in the gallery. -/
theorem imgLine_only_imgs (root loc : String) (imgs dirs : List String) (f : String)
    (hmem : ("        <img class=\"image\" src=\"" ++ f ++ "\">")
      ∈ _create_index_file_lines root loc imgs dirs) : f ∈ imgs := by
  simp only [_create_index_file_lines] at hmem
  rw [galleryFold_append] at hmem
  rcases List.mem_append.1 hmem with h5 | hfoot
  rotate_left
  · simp only [List.mem_cons, List.not_mem_nil, or_false] at hfoot
    rcases hfoot with h|h|h <;> exact absurd h (imgLine_ne_lit f (by decide))
  rcases List.mem_append.1 h5 with h4 | hctr
  rotate_left
  · simp only [List.mem_cons, List.not_mem_nil, or_false] at hctr
    rcases hctr with h|h <;> exact absurd h (imgLine_ne_lit f (by decide))
  rcases List.mem_append.1 h4 with h3 | hfold
  rotate_left
  · rcases galleryFold_mem_sup imgs [] 1 _ hfold with hz | hz | hz | ⟨g, hg, hz⟩
    · cases hz
    · exact absurd hz (imgLine_ne_lit f (by decide))
    · exact absurd hz (imgLine_ne_lit f (by decide))
    · simp only [cellLines, List.mem_cons, List.not_mem_nil, or_false] at hz
      rcases hz with h|h|h|h|h
      · exact absurd h (imgLine_ne_lit f (by decide))
      · rw [strAppend_assoc "    <a href=\"" g "\">"] at h
        exact absurd h (imgLine_ne_append f _ (by decide) (by decide))
      · have := strAppend_inj h
        rw [this]
        exact hg
      · exact absurd h (imgLine_ne_lit f (by decide))
      · exact absurd h (imgLine_ne_lit f (by decide))
  rcases List.mem_append.1 h3 with h2 | hhr
  rotate_left
  · simp only [List.mem_cons, List.not_mem_nil, or_false] at hhr
    rcases hhr with h|h <;> exact absurd h (imgLine_ne_lit f (by decide))
  rcases List.mem_append.1 h2 with hhead | hnav
  · exact absurd hhead (imgLine_not_in_head f _)
  · exact absurd hnav (imgLine_not_in_nav f _)

/-- Every navigation entry is rendered as a link line pointing at
entry/INDEX_FILE_NAME. -/
theorem navLine_in_lines (root loc : String) (imgs dirs : List String) (e : String)
    (he : e ∈ navDirectories root loc dirs) :
    ("    <a href=\"" ++ (e ++ "/" ++ INDEX_FILE_NAME) ++ "\">" ++ e ++ "</a>")
      ∈ _create_index_file_lines root loc imgs dirs := by
  simp only [_create_index_file_lines]
  refine List.mem_append_left _ (List.mem_append_left _ ?_)
  refine galleryFold_mem_acc _ _ _ _ ?_
  refine List.mem_append_left _ ?_
  refine List.mem_append_right _ ?_
  exact List.mem_flatten.2 ⟨navEntryLines e, List.mem_map_of_mem _ he, by
    simp [navEntryLines]⟩

/-- C3: for every visited directory the image list handed to the renderer is
exactly the matching subset of the listing: it is a permutation of the
filtered listing, its members are exactly the listed names matching
IMAGE_FILE_REGEX, it is sorted lexicographically ascending, and the rendered
document has an image cell line exactly for the members of that list. -/
theorem claim3_image_list (root : String) (t : FsTree)
    (v : String × List String × List String) (hv : v ∈ os_walk root t) :
    ((pySorted (v.2.2.filter (fun f => reMatchImage f))).Perm
        (v.2.2.filter (fun f => reMatchImage f))) ∧
    (∀ f : String, f ∈ pySorted (v.2.2.filter (fun f => reMatchImage f))
        ↔ (f ∈ v.2.2 ∧ reMatchImage f = true)) ∧
    (List.Sorted (fun a b => List.Lex (· < ·) a.data b.data ∨ a = b)
        (pySorted (v.2.2.filter (fun f => reMatchImage f)))) ∧
    (∀ f ∈ pySorted (v.2.2.filter (fun f => reMatchImage f)),
      ("        <img class=\"image\" src=\"" ++ f ++ "\">")
        ∈ _create_index_file_lines root v.1
            (pySorted (v.2.2.filter (fun f => reMatchImage f))) (pySorted v.2.1)) ∧
    (∀ f : String, ("        <img class=\"image\" src=\"" ++ f ++ "\">")
        ∈ _create_index_file_lines root v.1
            (pySorted (v.2.2.filter (fun f => reMatchImage f))) (pySorted v.2.1)
      → f ∈ pySorted (v.2.2.filter (fun f => reMatchImage f))) := by
  refine ⟨pySorted_perm _, ?_, pySorted_sorted_lex _, ?_, ?_⟩
  · intro f
    rw [pySorted_mem, List.mem_filter]
  · intro f hf
    exact imgLine_in_lines root v.1 _ (pySorted v.2.1) f hf
  · intro f hf
    exact imgLine_only_imgs root v.1 _ (pySorted v.2.1) f hf

/-- Witness for C3 on the root visit of the sample tree: the image list is
the sorted matching pair, readme.md is excluded, and the rendered lines hold
an image cell for a.jpg. -/
theorem claim3_witness :
    (pySorted ((["b.png", "a.jpg", "readme.md"] : List String).filter
        (fun f => reMatchImage f)) = ["a.jpg", "b.png"]) ∧
    (("readme.md" ∈ pySorted ((["b.png", "a.jpg", "readme.md"] : List String).filter
        (fun f => reMatchImage f))) ↔ ("readme.md" ∈ (["b.png", "a.jpg", "readme.md"] : List String) ∧ reMatchImage "readme.md" = true)) ∧
    ("        <img class=\"image\" src=\"a.jpg\">"
      ∈ _create_index_file_lines "." "."
          (pySorted ((["b.png", "a.jpg", "readme.md"] : List String).filter
            (fun f => reMatchImage f))) (pySorted ["sub"])) := by
  refine ⟨by decide, ?_, ?_⟩
  · exact (claim3_image_list "." sampleTree (".", ["sub"], ["b.png", "a.jpg", "readme.md"])
      (by decide)).2.1 "readme.md"
  · exact (claim3_image_list "." sampleTree (".", ["sub"], ["b.png", "a.jpg", "readme.md"])
      (by decide)).2.2.2.1 "a.jpg" (by decide)

/-- C5: every visit is either the root visit or a deeper one; the navigation
list rendered for a visited directory is its subdirectory names sorted
lexicographically ascending, with a parent entry prepended exactly when the
directory is not the crawl root (deeper visits never carry the root path when
the tree names are well formed), and every entry is rendered as a link line
pointing at entry/INDEX_FILE_NAME. -/
theorem claim5_nav_list (root : String) (t : FsTree) (hw : WalkNamesWf root t)
    (v : String × List String × List String) (hv : v ∈ os_walk root t) :
    ((pySorted v.2.1).Perm v.2.1) ∧
    (List.Sorted (fun a b => List.Lex (· < ·) a.data b.data ∨ a = b) (pySorted v.2.1)) ∧
    (v = (root, t.subdirs.map Prod.fst, t.files) ∨ v ∈ os_walkList root t.subdirs) ∧
    (v = (root, t.subdirs.map Prod.fst, t.files) →
      navDirectories root v.1 (pySorted v.2.1) = pySorted v.2.1) ∧
    (v ∈ os_walkList root t.subdirs →
      navDirectories root v.1 (pySorted v.2.1) = ".." :: pySorted v.2.1) ∧
    (∀ e ∈ navDirectories root v.1 (pySorted v.2.1),
      ("    <a href=\"" ++ (e ++ "/" ++ INDEX_FILE_NAME) ++ "\">" ++ e ++ "</a>")
        ∈ _create_index_file_lines root v.1
            (pySorted (v.2.2.filter (fun f => reMatchImage f))) (pySorted v.2.1)) := by
  refine ⟨pySorted_perm _, pySorted_sorted_lex _, ?_, ?_, ?_, ?_⟩
  · cases t with
    | mk s fl => exact List.mem_cons.1 hv
  · intro hvh
    rw [hvh]
    show (if root ≠ root then [".."] else []) ++ _ = _
    rw [if_neg (fun h => h rfl)]
    rfl
  · intro hvt
    have hne := walkList_path_ne root t hw v hvt
    show (if root ≠ v.1 then [".."] else []) ++ _ = _
    rw [if_pos (Ne.symm hne)]
    rfl
  · intro e he
    exact navLine_in_lines root v.1 _ _ e he

/-- Witness for C5 on the sample tree: the root visit gets no parent entry,
the sub visit gets exactly the parent entry, and the link line for sub is
present in the root index lines. -/
theorem claim5_witness :
    (navDirectories "." "." (pySorted ["sub"]) = pySorted ["sub"]) ∧
    (navDirectories "." "./sub" (pySorted ([] : List String))
      = ".." :: pySorted ([] : List String)) ∧
    ("    <a href=\"" ++ ("sub" ++ "/" ++ INDEX_FILE_NAME) ++ "\">" ++ "sub" ++ "</a>"
      ∈ _create_index_file_lines "." "."
          (pySorted ((["b.png", "a.jpg", "readme.md"] : List String).filter
            (fun f => reMatchImage f))) (pySorted ["sub"])) :=
  ⟨(claim5_nav_list "." sampleTree (by unfold WalkNamesWf; decide)
      (".", ["sub"], ["b.png", "a.jpg", "readme.md"]) (by decide)).2.2.2.1 (by decide),
   (claim5_nav_list "." sampleTree (by unfold WalkNamesWf; decide)
      ("./sub", [], ["c.jpg", "notes.txt"]) (by decide)).2.2.2.2.1 (by decide),
   (claim5_nav_list "." sampleTree (by unfold WalkNamesWf; decide)
      (".", ["sub"], ["b.png", "a.jpg", "readme.md"]) (by decide)).2.2.2.2.2 "sub"
      (by decide)⟩
